import Mathlib

/-!
A shallow embedding of `portfolio_perfomance.py`.

Modelling choices:
* Dates are day ordinals (`ℕ`); a pandas daily `date_range` becomes a
  contiguous range of naturals.
* A pandas cell is `Option ℚ`: `none` models `NaN` (and non-finite results),
  `some q` a finite float.  Arithmetic on cells propagates `none` exactly as
  float arithmetic propagates `NaN`.
* A `DataFrame` becomes `Table`: a date index plus named columns.
* Python exceptions become an `Except PyErr` result: `keyError` for
  `KeyError` (the spec's `DateNotFoundError` at the query boundary),
  `valueError` for `ValueError` (the spec's `InvalidRangeError`, raised by the
  `pd.Series` length check when the `.loc` slice is empty), `indexError` for
  out-of-bounds positional access.
-/

deriving instance DecidableEq for Except

abbrev Val : Type := Option ℚ

inductive PyErr : Type
  | keyError : PyErr
  | valueError : PyErr
  | indexError : PyErr
deriving DecidableEq, Repr

/-- NaN-propagating addition on cells. -/
def oAdd : Val → Val → Val
  | some a, some b => some (a + b)
  | _, _ => none

/-- NaN-propagating subtraction on cells. -/
def oSub : Val → Val → Val
  | some a, some b => some (a - b)
  | _, _ => none

/-- NaN-propagating multiplication on cells. -/
def oMul : Val → Val → Val
  | some a, some b => some (a * b)
  | _, _ => none

/-- NaN-propagating division on cells; division by zero gives a non-finite
result, modelled as `none`. -/
def oDiv : Val → Val → Val
  | some a, some b => if b = 0 then none else some (a / b)
  | _, _ => none

/-- A date-indexed table: `idx` lists the row dates, `cols` the named columns,
each column listing one cell per row. -/
structure Table : Type where
  idx : List ℕ
  cols : List (String × List Val)
deriving Repr, DecidableEq

def colNames (t : Table) : List String := t.cols.map Prod.fst

/-- Model of `df[asset]`: the named column of a table (`[]` stands for the column of a
name the pipeline never asks for, since the pipeline only iterates existing
column names). -/
def getCol (t : Table) (a : String) : List Val :=
  match t.cols.find? (fun p => p.1 == a) with
  | some p => p.2
  | none => []

/-- The raw inputs, as loaded in `AssetPerfomances.__init__`:
prices (dates × assets), currencies (asset → currency code),
exchanges (dates × currency codes), weights (dates × assets). -/
structure RawData : Type where
  prices : Table
  currencies : List (String × String)
  exchanges : Table
  weights : Table

/-- Model of `pd.date_range(df.index[0], df.index[-1], freq='D')`: every calendar day
from the first to the last date of the index. -/
def dailyRange (idx : List ℕ) : List ℕ :=
  match idx.head?, idx.getLast? with
  | some a, some b => List.range' a (b + 1 - a)
  | _, _ => []

/-- Value of a date-labelled column at a given date label (`none` when the
label is absent, as after a reindexing join). -/
def lookupDate (idx : List ℕ) (col : List Val) (d : ℕ) : Val :=
  match (idx.zip col).find? (fun p => p.1 == d) with
  | some p => p.2
  | none => none

/-- Model of `__get_new_index` restricted to one column: align the column onto the
contiguous daily calendar, leaving `NaN` on days the original index misses. -/
def newIndexCol (idx : List ℕ) (col : List Val) : List Val :=
  (dailyRange idx).map (fun d => lookupDate idx col d)

/-- Model of `fillna(method='ffill')`: replace each missing cell by the last
preceding known cell. -/
def ffillAux (last : Val) : List Val → List Val
  | [] => []
  | some v :: rest => some v :: ffillAux (some v) rest
  | none :: rest => last :: ffillAux last rest

def ffill (l : List Val) : List Val := ffillAux none l

/-- Model of `fillna(method='bfill')`: replace each missing cell by the first
following known cell. -/
def bfill (l : List Val) : List Val := (ffill l.reverse).reverse

/-- Model of `__replace_na_values`: forward fill, then backward fill. -/
def fillNA (l : List Val) : List Val := bfill (ffill l)

/-- Model of `self.__new_prices` as recomputed per asset: the asset's price column on
the daily calendar with gaps filled. -/
def new_prices_for (prices : Table) (asset : String) : List Val :=
  fillNA (newIndexCol prices.idx (getCol prices asset))

/-- The day-over-day return loop shared verbatim by the price and currency
return calculations: entry `i` is `(l[i+1] - l[i]) / l[i]`. -/
def diffReturns (l : List Val) : List Val :=
  (List.range (l.length - 1)).map (fun i =>
    oDiv (oSub (l.getD (i + 1) none) (l.getD i none)) (l.getD i none))

/-- Model of `__count_return_prices_for_asset`: day-over-day fractional price returns
of the normalized, gap-filled price column. -/
def count_return_prices_for_asset (prices : Table) (asset : String) : List Val :=
  diffReturns (new_prices_for prices asset)

/-- Model of `__get_series_by_currency`: the exchange-rate column of the asset's
currency; a `KeyError` (asset with no currency row, or currency code with no
exchange column — in particular the base currency `USD`) yields a constant
series of ones over the exchange-table index. -/
def get_series_by_currency (currencies : List (String × String)) (exchanges : Table)
    (asset : String) : List Val :=
  match currencies.find? (fun p => p.1 == asset) with
  | none => List.replicate exchanges.idx.length (some 1)
  | some p =>
    match exchanges.cols.find? (fun q => q.1 == p.2) with
    | none => List.replicate exchanges.idx.length (some 1)
    | some q => q.2

/-- Model of `__count_currency_perfomance_for_asset`: zeros for a `USD` asset;
otherwise day-over-day returns of the gap-filled exchange-rate column.  The
lookups `self._currencies.loc[asset]` and `self._exchanges[cur_currency]` are
not guarded here, so a missing row or column raises `KeyError`. -/
def count_currency_perfomance_for_asset (currencies : List (String × String))
    (exchanges : Table) (asset : String) : Except PyErr (List Val) :=
  match currencies.find? (fun p => p.1 == asset) with
  | none => .error .keyError
  | some p =>
    if p.2 == "USD" then
      .ok (List.replicate (exchanges.idx.length - 1) (some 0))
    else
      match exchanges.cols.find? (fun q => q.1 == p.2) with
      | none => .error .keyError
      | some q => .ok (diffReturns (fillNA q.2))

/-- The loop body of `__count_total_perfomance_for_asset`: entry `i` is the
day-over-day return of `value[i] = cur[i] * np[i]`. -/
def totalLoop (np cur : List Val) : List Val :=
  (List.range (np.length - 1)).map (fun i =>
    oDiv
      (oSub (oMul (cur.getD (i + 1) none) (np.getD (i + 1) none))
        (oMul (cur.getD i none) (np.getD i none)))
      (oMul (cur.getD i none) (np.getD i none)))

/-- Model of `__count_total_perfomance_for_asset`: day-over-day returns of
`value[i] = rate[i] * price[i]`, the price normalized and gap-filled, the rate
read positionally from the raw exchange series of the asset's currency.  The
positional read `self.__currency_for_asset[i]` raises `IndexError` when the
rate series is shorter than the daily price calendar. -/
def count_total_perfomance_for_asset (prices : Table) (currencies : List (String × String))
    (exchanges : Table) (asset : String) : Except PyErr (List Val) :=
  if (new_prices_for prices asset).length ≤ 1 ∨
      (new_prices_for prices asset).length ≤
        (get_series_by_currency currencies exchanges asset).length then
    .ok (totalLoop (new_prices_for prices asset)
      (get_series_by_currency currencies exchanges asset))
  else .error .indexError

/-- Model of `df.index = newIdx`: pandas re-labels the rows, raising `ValueError` when
the new index length differs from the frame's current length. -/
def assignIndex (cols : List (String × List Val)) (newIdx : List ℕ) : Except PyErr Table :=
  let n : ℕ :=
    match cols.head? with
    | some p => p.2.length
    | none => 0
  if n = newIdx.length then .ok ⟨newIdx, cols⟩ else .error .valueError

/-- The per-asset column loop of the `_calculate_*_for_all_assets` methods:
the first raised exception aborts the loop. -/
def collectCols (f : String → Except PyErr (List Val)) :
    List String → Except PyErr (List (String × List Val))
  | [] => .ok []
  | a :: rest =>
    match f a with
    | .error e => .error e
    | .ok s =>
      match collectCols f rest with
      | .error e => .error e
      | .ok cs => .ok ((a, s) :: cs)

/-- Model of `_calculate_price_perfomance_for_all_assets`: one return column per price
asset, re-labelled by the daily price calendar without its first day. -/
def calculate_price_perfomance_for_all_assets (prices : Table) : Except PyErr Table :=
  assignIndex ((colNames prices).map (fun a => (a, count_return_prices_for_asset prices a)))
    ((dailyRange prices.idx).drop 1)

/-- Model of `_calculate_currency_perfomance_for_all_assets`: one currency-return
column per price asset, re-labelled by the daily exchange calendar without its
first day. -/
def calculate_currency_perfomance_for_all_assets (d : RawData) : Except PyErr Table :=
  match collectCols (fun a => count_currency_perfomance_for_asset d.currencies d.exchanges a)
      (colNames d.prices) with
  | .error e => .error e
  | .ok cols => assignIndex cols ((dailyRange d.exchanges.idx).drop 1)

/-- Model of `_calculate_total_perfomance_for_all_assets`: one total-return column per
price asset, re-labelled by the daily price calendar without its first day. -/
def calculate_total_perfomance_for_all_assets (d : RawData) : Except PyErr Table :=
  match collectCols
      (fun a => count_total_perfomance_for_asset d.prices d.currencies d.exchanges a)
      (colNames d.prices) with
  | .error e => .error e
  | .ok cols => assignIndex cols ((dailyRange d.prices.idx).drop 1)

/-- Model of `_prepare_weights_df`: weights on the daily calendar, gap-filled like the
prices, with the final day dropped. -/
def prepare_weights_df (weights : Table) : Table :=
  ⟨(dailyRange weights.idx).dropLast,
   weights.cols.map (fun p => (p.1, (fillNA (newIndexCol weights.idx p.2)).dropLast))⟩

/-- Merge of two sorted date indexes dropping duplicates, written with an
explicit fuel argument so that it is structurally recursive (each step
consumes at least one element, so fuel `|xs| + |ys|` is never exhausted and
the fallback branch is unreachable). -/
def mergeUnionFuel : ℕ → List ℕ → List ℕ → List ℕ
  | 0, xs, ys => xs ++ ys
  | _ + 1, [], ys => ys
  | _ + 1, x :: xs, [] => x :: xs
  | fuel + 1, x :: xs, y :: ys =>
    if x < y then x :: mergeUnionFuel fuel xs (y :: ys)
    else if y < x then y :: mergeUnionFuel fuel (x :: xs) ys
    else x :: mergeUnionFuel fuel xs ys

/-- Sorted union of two date indexes, as produced by pandas alignment of two
monotonic indexes. -/
def mergeUnion (xs ys : List ℕ) : List ℕ :=
  mergeUnionFuel (xs.length + ys.length) xs ys

/-- Cell of a table at a column name and a date label; `none` when either is
absent, as pandas alignment fills non-matching labels with `NaN`. -/
def atDate (t : Table) (a : String) (d : ℕ) : Val :=
  match t.cols.find? (fun p => p.1 == a) with
  | some p => lookupDate t.idx p.2 d
  | none => none

/-- The aligned column-name set of `df * w`: pandas takes the union of the
column labels of the two frames. -/
def alignNames (df w : Table) : List String :=
  colNames df ++ (colNames w).filter (fun n => ¬ (colNames df).contains n)

/-- One row of `df * w` summed with Python's `sum`, which starts at `0` and
propagates `NaN`. -/
def rowSum (df w : Table) (d : ℕ) : Val :=
  ((alignNames df w).map (fun a => oMul (atDate df a d) (atDate w a d))).foldl oAdd (some 0)

/-- The shared body of the `_calculate_*_perfomance_according_on_weights`
methods: `df * w` aligns both frames on the union of their date indexes and
the union of their column names (missing labels become `NaN`), and each row of
the product is then summed with Python's `sum`, which propagates `NaN`. -/
def mul_with_weights (df w : Table) : List (ℕ × Val) :=
  (mergeUnion df.idx w.idx).map (fun d => (d, rowSum df w d))

def calculate_price_perfomance_according_on_weights (rt w : Table) : List (ℕ × Val) :=
  mul_with_weights rt w

def calculate_currency_perfomance_according_on_weights (crt w : Table) : List (ℕ × Val) :=
  mul_with_weights crt w

def calculate_total_perfomance_according_on_weights (trt w : Table) : List (ℕ × Val) :=
  mul_with_weights trt w

/-- Model of `self.__res_t`: the portfolio-level daily price-return series. -/
def res_t (d : RawData) : Except PyErr (List (ℕ × Val)) :=
  match calculate_price_perfomance_for_all_assets d.prices with
  | .error e => .error e
  | .ok rt =>
    .ok (calculate_price_perfomance_according_on_weights rt (prepare_weights_df d.weights))

/-- Model of `self.__currency_res_t`: the portfolio-level daily currency-return series. -/
def currency_res_t (d : RawData) : Except PyErr (List (ℕ × Val)) :=
  match calculate_currency_perfomance_for_all_assets d with
  | .error e => .error e
  | .ok crt =>
    .ok (calculate_currency_perfomance_according_on_weights crt (prepare_weights_df d.weights))

/-- Model of `self.__total_res_t`: the portfolio-level daily total-return series. -/
def total_res_t (d : RawData) : Except PyErr (List (ℕ × Val)) :=
  match calculate_total_perfomance_for_all_assets d with
  | .error e => .error e
  | .ok trt =>
    .ok (calculate_total_perfomance_according_on_weights trt (prepare_weights_df d.weights))

/-- Model of `index.get_loc(date)`: position of the first exact match of a date label
(`none`, i.e. `KeyError`, when the label is absent). -/
def get_loc_idx (idx : List ℕ) (d : ℕ) : Option ℕ :=
  match idx with
  | [] => none
  | x :: rest => if x == d then some 0 else (get_loc_idx rest d).map (· + 1)

/-- One compounding step: `previous * (1 + return[k])`. -/
def cstep (r : List Val) (acc : Val) (k : ℕ) : Val :=
  oMul acc (oAdd (some 1) (r.getD k none))

/-- The compounding loop `for i in range(start+1, end+1)`, appending
`last * (1 + r[i])` at each position, with `acc` the value appended last. -/
def compoundStep (r : List Val) (acc : Val) : List ℕ → List Val
  | [] => []
  | i :: rest => cstep r acc i :: compoundStep r (cstep r acc i) rest

/-- The full list of compounded values for positions `s..e`: the seed `1`
followed by the loop over `range(s+1, e+1)`. -/
def compoundVals (r : List Val) (s e : ℕ) : List Val :=
  some 1 :: compoundStep r (some 1) (List.range' (s + 1) (e - s))

/-- The product `Π_{k=s+1}^{i} (1 + r[k])` in cell arithmetic: the spec's
closed form for the compounded value at position `i` of a window starting
at `s`. -/
def compoundProd (r : List Val) (s i : ℕ) : Val :=
  (List.range' (s + 1) (i - s)).foldl (cstep r) (some 1)

/-- The shared body of the three `calculate_*_performance` query methods:
resolve both dates with `get_loc` (`KeyError` on a missing label), run the
compounding loop, and build `pd.Series(values, index=series.loc[sd:ed].index)`
— the constructor raises `ValueError` when the slice length differs from the
value count, which is what an inverted range produces. -/
def calcPerf (res : List (ℕ × Val)) (sd ed : ℕ) : Except PyErr (List (ℕ × Val)) :=
  match get_loc_idx (res.map Prod.fst) sd with
  | none => .error .keyError
  | some s =>
    match get_loc_idx (res.map Prod.fst) ed with
    | none => .error .keyError
    | some e =>
      if ((res.map Prod.fst).filter
            (fun dd => decide (sd ≤ dd) && decide (dd ≤ ed))).length =
          (compoundVals (res.map Prod.snd) s e).length then
        .ok (((res.map Prod.fst).filter
          (fun dd => decide (sd ≤ dd) && decide (dd ≤ ed))).zip
          (compoundVals (res.map Prod.snd) s e))
      else .error .valueError

/-- Model of `TotalPerfomance.calculate_asset_performance`. -/
def calculate_asset_performance (d : RawData) (sd ed : ℕ) :
    Except PyErr (List (ℕ × Val)) :=
  match res_t d with
  | .error e => .error e
  | .ok r => calcPerf r sd ed

/-- Model of `TotalPerfomance.calculate_currency_performance`. -/
def calculate_currency_performance (d : RawData) (sd ed : ℕ) :
    Except PyErr (List (ℕ × Val)) :=
  match currency_res_t d with
  | .error e => .error e
  | .ok r => calcPerf r sd ed

/-- Model of `TotalPerfomance.calculate_total_performance`. -/
def calculate_total_performance (d : RawData) (sd ed : ℕ) :
    Except PyErr (List (ℕ × Val)) :=
  match total_res_t d with
  | .error e => .error e
  | .ok r => calcPerf r sd ed

/-- Strictly increasing date index, as a Boolean predicate. -/
def strictSorted : List ℕ → Bool
  | [] => true
  | [_] => true
  | a :: b :: rest => decide (a < b) && strictSorted (b :: rest)

/-! ### Concrete example datasets, used to instantiate the theorems -/

/-- Three daily price observations for one asset `A`. -/
def exPrices : Table := ⟨[0, 1, 2], [("A", [some 1, some 2, some 4])]⟩

def exCurrencies : List (String × String) := [("A", "EUR")]

/-- Three daily euro exchange rates. -/
def exExchanges : Table := ⟨[0, 1, 2], [("EUR", [some 1, some 1, some 2])]⟩

/-- Constant weights on the same three days. -/
def exWeights : Table := ⟨[0, 1, 2], [("A", [some 1, some 1, some 1])]⟩

def exData : RawData := ⟨exPrices, exCurrencies, exExchanges, exWeights⟩

/-- The portfolio price-return series the pipeline computes from `exData`. -/
def exRes : List (ℕ × Val) := [(0, none), (1, some 1), (2, none)]

/-- Four price days against a two-day weight table: the weight calendar is
shorter than the price calendar. -/
def exPrices4 : Table := ⟨[0, 1, 2, 3], [("A", [some 1, some 1, some 1, some 1])]⟩

def exWeights2 : Table := ⟨[0, 1], [("A", [some 1, some 1])]⟩

def exData4 : RawData := ⟨exPrices4, exCurrencies, exExchanges, exWeights2⟩

/-- An exchange-rate table with an internal calendar gap (days 0 and 2 only). -/
def gapExchanges : Table := ⟨[0, 2], [("EUR", [some 1, some 2])]⟩

/-- A currency assignment whose code has no exchange-rate column. -/
def exCurrenciesGBP : List (String × String) := [("A", "GBP")]

/-- Two-day prices used for the C2/C3 instances. -/
def exPrices2 : Table := ⟨[0, 1], [("A", [some 1, some 2])]⟩

/-- Two-day exchange rates used for the C3 instance. -/
def exExchanges2 : Table := ⟨[0, 1], [("EUR", [some 1, some 2])]⟩

/-- A currency assignment to the base currency `USD`. -/
def exCurrenciesUSD : List (String × String) := [("A", "USD")]

/-- Raw data whose exchange table has a calendar gap. -/
def exDataGap : RawData := ⟨exPrices, exCurrencies, gapExchanges, exWeights⟩

/-! ### Basic length and access lemmas -/

theorem ffillAux_length (l : List Val) : ∀ acc, (ffillAux acc l).length = l.length := by
  induction l with
  | nil => intro acc; rfl
  | cons h t ih => intro acc; cases h <;> simp [ffillAux, ih]

theorem ffill_length (l : List Val) : (ffill l).length = l.length :=
  ffillAux_length l none

theorem bfill_length (l : List Val) : (bfill l).length = l.length := by
  simp [bfill, ffill_length]

theorem fillNA_length (l : List Val) : (fillNA l).length = l.length := by
  simp [fillNA, bfill_length, ffill_length]

theorem newIndexCol_length (idx : List ℕ) (col : List Val) :
    (newIndexCol idx col).length = (dailyRange idx).length := by
  simp [newIndexCol]

theorem new_prices_for_length (prices : Table) (a : String) :
    (new_prices_for prices a).length = (dailyRange prices.idx).length := by
  simp [new_prices_for, fillNA_length, newIndexCol_length]

theorem getD_range_map (f : ℕ → Val) {n i : ℕ} (h : i < n) (x : Val) :
    ((List.range n).map f).getD i x = f i := by
  have hlen : i < ((List.range n).map f).length := by simpa using h
  rw [List.getD_eq_getElem _ _ hlen, List.getElem_map]
  simp

theorem diffReturns_length (l : List Val) : (diffReturns l).length = l.length - 1 := by
  simp [diffReturns]

theorem diffReturns_getD (l : List Val) {i : ℕ} (h : i < l.length - 1) :
    (diffReturns l).getD i none =
      oDiv (oSub (l.getD (i + 1) none) (l.getD i none)) (l.getD i none) :=
  getD_range_map _ h none

theorem totalLoop_length (np cur : List Val) : (totalLoop np cur).length = np.length - 1 := by
  simp [totalLoop]

theorem totalLoop_getD (np cur : List Val) {i : ℕ} (h : i < np.length - 1) :
    (totalLoop np cur).getD i none =
      oDiv
        (oSub (oMul (cur.getD (i + 1) none) (np.getD (i + 1) none))
          (oMul (cur.getD i none) (np.getD i none)))
        (oMul (cur.getD i none) (np.getD i none)) :=
  getD_range_map _ h none

/-! ### Strictly sorted indexes -/

theorem strictSorted_tail {a : ℕ} {l : List ℕ} (h : strictSorted (a :: l) = true) :
    strictSorted l = true := by
  cases l with
  | nil => rfl
  | cons b t =>
    simp only [strictSorted, Bool.and_eq_true] at h
    exact h.2

theorem strictSorted_head_lt {a : ℕ} {l : List ℕ} (h : strictSorted (a :: l) = true) :
    ∀ x ∈ l, a < x := by
  induction l generalizing a with
  | nil => intro x hx; cases hx
  | cons b t ih =>
    intro x hx
    simp only [strictSorted, Bool.and_eq_true, decide_eq_true_eq] at h
    rcases List.mem_cons.mp hx with rfl | hx
    · exact h.1
    · exact Nat.lt_trans h.1 (ih h.2 x hx)

theorem strictSorted_getD_lt {l : List ℕ} (h : strictSorted l = true) {i j : ℕ}
    (hij : i < j) (hj : j < l.length) : l.getD i 0 < l.getD j 0 := by
  induction l generalizing i j with
  | nil => simp at hj
  | cons a t ih =>
    cases i with
    | zero =>
      cases j with
      | zero => omega
      | succ j' =>
        have hj' : j' < t.length := by simpa using hj
        have hmem : t.getD j' 0 ∈ t := by
          rw [List.getD_eq_getElem _ _ hj']
          exact List.getElem_mem hj'
        simpa using strictSorted_head_lt h _ hmem
    | succ i' =>
      cases j with
      | zero => omega
      | succ j' =>
        have hj' : j' < t.length := by simpa using hj
        simpa using ih (strictSorted_tail h) (by omega) hj'

/-! ### `get_loc` lemmas -/

theorem get_loc_idx_some {l : List ℕ} {d i : ℕ} (h : get_loc_idx l d = some i) :
    i < l.length ∧ l.getD i 0 = d := by
  induction l generalizing i with
  | nil => simp [get_loc_idx] at h
  | cons x t ih =>
    simp only [get_loc_idx] at h
    by_cases hx : x = d
    · rw [if_pos (by simpa using hx)] at h
      injection h with h
      subst h
      exact ⟨by simp, by simpa using hx⟩
    · rw [if_neg (by simpa using hx), Option.map_eq_some'] at h
      obtain ⟨i', hi', rfl⟩ := h
      obtain ⟨h1, h2⟩ := ih hi'
      exact ⟨by simpa using h1, by simpa using h2⟩

theorem get_loc_idx_none_of_not_mem {l : List ℕ} {d : ℕ} (h : d ∉ l) :
    get_loc_idx l d = none := by
  induction l with
  | nil => rfl
  | cons x t ih =>
    have hxd : (x == d) = false := by
      simp only [beq_eq_false_iff_ne, ne_eq]
      intro he
      exact h (he ▸ List.mem_cons_self x t)
    have ht : d ∉ t := fun hm => h (List.mem_cons_of_mem _ hm)
    simp [get_loc_idx, hxd, ih ht]

/-! ### Slicing a sorted index with `.loc[sd:ed]` -/

theorem filter_le_take {l : List ℕ} (hs : strictSorted l = true) {e : ℕ} (he : e < l.length) :
    l.filter (fun dd => decide (dd ≤ l.getD e 0)) = l.take (e + 1) := by
  induction l generalizing e with
  | nil => simp at he
  | cons a t ih =>
    cases e with
    | zero =>
      simp only [List.getD_cons_zero, List.filter_cons]
      rw [if_pos (by simp)]
      have htf : t.filter (fun dd => decide (dd ≤ a)) = [] := by
        rw [List.filter_eq_nil_iff]
        intro x hx
        have := strictSorted_head_lt hs x hx
        simp
        omega
      simp [htf]
    | succ e' =>
      have he' : e' < t.length := by simpa using he
      have hmem : t.getD e' 0 ∈ t := by
        rw [List.getD_eq_getElem _ _ he']
        exact List.getElem_mem he'
      have ha : a ≤ t.getD e' 0 := Nat.le_of_lt (strictSorted_head_lt hs _ hmem)
      simp only [List.getD_cons_succ, List.filter_cons]
      rw [if_pos (by simpa using ha), ih (strictSorted_tail hs) he']
      rfl

theorem filter_slice {l : List ℕ} (hs : strictSorted l = true) {s e : ℕ}
    (hse : s ≤ e) (he : e < l.length) :
    l.filter (fun dd => decide (l.getD s 0 ≤ dd) && decide (dd ≤ l.getD e 0)) =
      (l.drop s).take (e + 1 - s) := by
  induction l generalizing s e with
  | nil => simp at he
  | cons a t ih =>
    cases s with
    | zero =>
      have hcong : ∀ x ∈ a :: t,
          (decide ((a :: t).getD 0 0 ≤ x) && decide (x ≤ (a :: t).getD e 0)) =
            decide (x ≤ (a :: t).getD e 0) := by
        intro x hx
        rcases List.mem_cons.mp hx with rfl | hx
        · simp
        · have := strictSorted_head_lt hs x hx
          have hax : a ≤ x := Nat.le_of_lt this
          simp [hax]
      rw [List.filter_congr hcong, filter_le_take hs he]
      simp
    | succ s' =>
      cases e with
      | zero => omega
      | succ e' =>
        have he' : e' < t.length := by simpa using he
        have hs' : s' < t.length := by omega
        have hmem : t.getD s' 0 ∈ t := by
          rw [List.getD_eq_getElem _ _ hs']
          exact List.getElem_mem hs'
        have ha : a < t.getD s' 0 := strictSorted_head_lt hs _ hmem
        simp only [List.getD_cons_succ, List.filter_cons]
        rw [if_neg ?hneg, ih (strictSorted_tail hs) (by omega) he']
        case hneg =>
          simp only [Bool.and_eq_true, decide_eq_true_eq, not_and]
          intro hle
          omega
        simp [Nat.succ_sub_succ]

/-! ### Compounding lemmas -/

theorem compoundStep_length (r : List Val) (l : List ℕ) :
    ∀ acc, (compoundStep r acc l).length = l.length := by
  induction l with
  | nil => intro acc; rfl
  | cons i t ih => intro acc; simp [compoundStep, ih]

theorem take_range' : ∀ (n m a : ℕ), (List.range' a n).take m = List.range' a (min m n) := by
  intro n
  induction n with
  | zero => simp
  | succ n ih =>
    intro m a
    cases m with
    | zero => simp
    | succ m' =>
      simp [List.range'_succ, ih m' (a + 1), Nat.succ_min_succ]

theorem compoundStep_getD (r : List Val) :
    ∀ (l : List ℕ) (acc : Val) (j : ℕ), j < l.length →
      (compoundStep r acc l).getD j none = (l.take (j + 1)).foldl (cstep r) acc := by
  intro l
  induction l with
  | nil => intro acc j h; simp at h
  | cons i t ih =>
    intro acc j h
    cases j with
    | zero => simp [compoundStep]
    | succ j' =>
      have hj' : j' < t.length := by simpa using h
      simp only [compoundStep, List.getD_cons_succ, List.take_succ_cons, List.foldl_cons]
      exact ih (cstep r acc i) j' hj'

theorem compoundVals_length (r : List Val) (s e : ℕ) :
    (compoundVals r s e).length = e - s + 1 := by
  simp [compoundVals, compoundStep_length]

theorem compoundVals_getD (r : List Val) {s e i : ℕ} (h1 : s ≤ i) (h2 : i ≤ e) :
    (compoundVals r s e).getD (i - s) none = compoundProd r s i := by
  rcases Nat.eq_or_lt_of_le h1 with rfl | hlt
  · simp [compoundVals, compoundProd]
  · have heq : i - s = (i - s - 1) + 1 := by omega
    rw [compoundVals, heq, List.getD_cons_succ]
    have hj : i - s - 1 < (List.range' (s + 1) (e - s)).length := by
      simp
      omega
    rw [compoundStep_getD r _ _ _ hj, take_range']
    have hmin : min (i - s - 1 + 1) (e - s) = i - s := by omega
    rw [hmin]
    rfl

theorem compoundProd_succ (r : List Val) {s i : ℕ} (h : s < i) :
    compoundProd r s i = cstep r (compoundProd r s (i - 1)) i := by
  unfold compoundProd
  have h1 : i - s = (i - 1 - s) + 1 := by omega
  rw [h1, List.range'_1_concat, List.foldl_append]
  have h2 : s + 1 + (i - 1 - s) = i := by omega
  rw [h2]
  simp

/-! ### The compounding engine on a resolved, well-ordered range -/

theorem calcPerf_ok {res : List (ℕ × Val)} {sd ed s e : ℕ}
    (hsort : strictSorted (res.map Prod.fst) = true)
    (hs : get_loc_idx (res.map Prod.fst) sd = some s)
    (he : get_loc_idx (res.map Prod.fst) ed = some e)
    (hse : s ≤ e) :
    calcPerf res sd ed =
      .ok ((((res.map Prod.fst).drop s).take (e + 1 - s)).zip
        (compoundVals (res.map Prod.snd) s e)) := by
  obtain ⟨hsl, hsd⟩ := get_loc_idx_some hs
  obtain ⟨hel, hed⟩ := get_loc_idx_some he
  have hfilter : (res.map Prod.fst).filter
      (fun dd => decide (sd ≤ dd) && decide (dd ≤ ed)) =
      ((res.map Prod.fst).drop s).take (e + 1 - s) := by
    rw [← hsd, ← hed]
    exact filter_slice hsort hse hel
  have hlen : (((res.map Prod.fst).drop s).take (e + 1 - s)).length =
      (compoundVals (res.map Prod.snd) s e).length := by
    rw [compoundVals_length]
    simp only [List.length_take, List.length_drop, List.length_map] at *
    omega
  simp only [calcPerf, hs, he, hfilter, hlen, if_pos]

/-- The conclusions of claim C1 about the value of one query operation `q`
over an underlying return series `r` and resolved positions `s ≤ e`: the
query succeeds, its first entry is exactly `1`, every later entry satisfies
the compounding recurrence against `r`, and consequently equals the running
product of `(1 + return)` factors. -/
def compoundedSpec (r : List (ℕ × Val)) (s e : ℕ)
    (q : Except PyErr (List (ℕ × Val))) : Prop :=
  ∃ out, q = .ok out ∧ out.length = e - s + 1 ∧
    (out.map Prod.snd).getD 0 none = some 1 ∧
    (∀ i, s < i → i ≤ e →
      (out.map Prod.snd).getD (i - s) none =
        oMul ((out.map Prod.snd).getD (i - s - 1) none)
          (oAdd (some 1) ((r.map Prod.snd).getD i none))) ∧
    (∀ i, s ≤ i → i ≤ e →
      (out.map Prod.snd).getD (i - s) none = compoundProd (r.map Prod.snd) s i)

theorem calcPerf_spec {res : List (ℕ × Val)} {sd ed s e : ℕ}
    (hsort : strictSorted (res.map Prod.fst) = true)
    (hs : get_loc_idx (res.map Prod.fst) sd = some s)
    (he : get_loc_idx (res.map Prod.fst) ed = some e)
    (hse : s ≤ e) :
    compoundedSpec res s e (calcPerf res sd ed) := by
  obtain ⟨hel, hed⟩ := get_loc_idx_some he
  have hlenslice : (((res.map Prod.fst).drop s).take (e + 1 - s)).length = e - s + 1 := by
    simp only [List.length_take, List.length_drop, List.length_map] at *
    omega
  have hmap : ((((res.map Prod.fst).drop s).take (e + 1 - s)).zip
      (compoundVals (res.map Prod.snd) s e)).map Prod.snd =
      compoundVals (res.map Prod.snd) s e := by
    apply List.map_snd_zip
    rw [hlenslice, compoundVals_length]
  refine ⟨_, calcPerf_ok hsort hs he hse, ?_, ?_, ?_, ?_⟩
  · rw [List.length_zip, hlenslice, compoundVals_length]
    omega
  · rw [hmap]
    simp [compoundVals]
  · intro i h1 h2
    rw [hmap]
    have hprev : i - s - 1 = (i - 1) - s := by omega
    rw [compoundVals_getD _ (Nat.le_of_lt h1) h2, hprev,
      compoundVals_getD _ (by omega) (by omega),
      compoundProd_succ _ h1]
    rfl
  · intro i h1 h2
    rw [hmap]
    exact compoundVals_getD _ h1 h2

/-! ### Error paths of the compounding engine -/

theorem calcPerf_keyError {res : List (ℕ × Val)} {sd ed : ℕ}
    (h : sd ∉ res.map Prod.fst ∨ ed ∉ res.map Prod.fst) :
    calcPerf res sd ed = .error .keyError := by
  rcases h with h | h
  · simp [calcPerf, get_loc_idx_none_of_not_mem h]
  · cases hsd : get_loc_idx (res.map Prod.fst) sd with
    | none => simp [calcPerf, hsd]
    | some s => simp [calcPerf, hsd, get_loc_idx_none_of_not_mem h]

theorem calcPerf_valueError {res : List (ℕ × Val)} {sd ed s e : ℕ}
    (hsort : strictSorted (res.map Prod.fst) = true)
    (hs : get_loc_idx (res.map Prod.fst) sd = some s)
    (he : get_loc_idx (res.map Prod.fst) ed = some e)
    (hes : e < s) :
    calcPerf res sd ed = .error .valueError := by
  obtain ⟨hsl, hsd⟩ := get_loc_idx_some hs
  obtain ⟨hel, hed⟩ := get_loc_idx_some he
  have hlt : ed < sd := by
    rw [← hsd, ← hed]
    exact strictSorted_getD_lt hsort hes hsl
  have hfil : (res.map Prod.fst).filter
      (fun dd => decide (sd ≤ dd) && decide (dd ≤ ed)) = [] := by
    rw [List.filter_eq_nil_iff]
    intro x hx
    simp only [Bool.and_eq_true, decide_eq_true_eq, not_and]
    intro hle
    omega
  have hvlen : (compoundVals (res.map Prod.snd) s e).length = 1 := by
    rw [compoundVals_length]
    omega
  simp only [calcPerf, hs, he, hfil, List.length_nil, hvlen]
  rfl

/-! ### Claim theorems -/

/-- C1: for every date range whose endpoints resolve to positions `s ≤ e` in
the underlying portfolio-level return series, each of the three query
operations returns a CompoundedSeries whose first entry is exactly `1`, whose
entry at position `i` (`s < i ≤ e`) equals the previous entry times
`1 + portfolio_return[i]`, and which consequently equals the product
`Π_{k=s+1}^{i} (1 + portfolio_return[k])`. -/
theorem c1_compounding_identity_and_recurrence (d : RawData) (r : List (ℕ × Val))
    (sd ed s e : ℕ)
    (hsort : strictSorted (r.map Prod.fst) = true)
    (hs : get_loc_idx (r.map Prod.fst) sd = some s)
    (he : get_loc_idx (r.map Prod.fst) ed = some e)
    (hse : s ≤ e) :
    (res_t d = .ok r →
      compoundedSpec r s e (calculate_asset_performance d sd ed)) ∧
    (currency_res_t d = .ok r →
      compoundedSpec r s e (calculate_currency_performance d sd ed)) ∧
    (total_res_t d = .ok r →
      compoundedSpec r s e (calculate_total_performance d sd ed)) := by
  refine ⟨fun h => ?_, fun h => ?_, fun h => ?_⟩
  · simp only [calculate_asset_performance, h]
    exact calcPerf_spec hsort hs he hse
  · simp only [calculate_currency_performance, h]
    exact calcPerf_spec hsort hs he hse
  · simp only [calculate_total_performance, h]
    exact calcPerf_spec hsort hs he hse

theorem c1_compounding_identity_and_recurrence_witness :
    compoundedSpec exRes 0 2 (calculate_asset_performance exData 0 2) :=
  (c1_compounding_identity_and_recurrence exData exRes 0 2 0 2
    (by decide) (by decide) (by decide) (by decide)).1
    (by with_unfolding_all decide)

/-- C6: for each of the three query operations, a start or end date that is
absent from that metric's return-series calendar raises `KeyError` (the
spec's `DateNotFoundError`), and a start date resolving strictly after the
end date raises `ValueError` (the spec's `InvalidRangeError`, produced by the
`pd.Series` length check against the empty `.loc` slice); in either case the
result is an error, so no partial CompoundedSeries is returned. -/
theorem c6_boundary_errors (d : RawData) (r : List (ℕ × Val)) (sd ed : ℕ) :
    ((sd ∉ r.map Prod.fst ∨ ed ∉ r.map Prod.fst) →
      (res_t d = .ok r →
        calculate_asset_performance d sd ed = .error .keyError) ∧
      (currency_res_t d = .ok r →
        calculate_currency_performance d sd ed = .error .keyError) ∧
      (total_res_t d = .ok r →
        calculate_total_performance d sd ed = .error .keyError)) ∧
    (∀ s e, strictSorted (r.map Prod.fst) = true →
      get_loc_idx (r.map Prod.fst) sd = some s →
      get_loc_idx (r.map Prod.fst) ed = some e → e < s →
      (res_t d = .ok r →
        calculate_asset_performance d sd ed = .error .valueError) ∧
      (currency_res_t d = .ok r →
        calculate_currency_performance d sd ed = .error .valueError) ∧
      (total_res_t d = .ok r →
        calculate_total_performance d sd ed = .error .valueError)) := by
  constructor
  · intro hmem
    refine ⟨fun h => ?_, fun h => ?_, fun h => ?_⟩
    · simp only [calculate_asset_performance, h]
      exact calcPerf_keyError hmem
    · simp only [calculate_currency_performance, h]
      exact calcPerf_keyError hmem
    · simp only [calculate_total_performance, h]
      exact calcPerf_keyError hmem
  · intro s e hsort hs he hes
    refine ⟨fun h => ?_, fun h => ?_, fun h => ?_⟩
    · simp only [calculate_asset_performance, h]
      exact calcPerf_valueError hsort hs he hes
    · simp only [calculate_currency_performance, h]
      exact calcPerf_valueError hsort hs he hes
    · simp only [calculate_total_performance, h]
      exact calcPerf_valueError hsort hs he hes

theorem c6_boundary_errors_witness :
    calculate_asset_performance exData 5 1 = .error .keyError ∧
    calculate_asset_performance exData 2 1 = .error .valueError :=
  ⟨((c6_boundary_errors exData exRes 5 1).1 (by decide)).1
      (by with_unfolding_all decide),
   (((c6_boundary_errors exData exRes 2 1).2 2 1
      (by decide) (by decide) (by decide) (by decide)).1
      (by with_unfolding_all decide))⟩

/-- C10: when both query dates exist in the metric's return-series calendar
and resolve to the same position, each of the three query operations succeeds
and returns the one-entry series carrying exactly the value `1` at that
date. -/
theorem c10_single_day_range (d : RawData) (r : List (ℕ × Val)) (sd ed s : ℕ)
    (hsort : strictSorted (r.map Prod.fst) = true)
    (hs : get_loc_idx (r.map Prod.fst) sd = some s)
    (he : get_loc_idx (r.map Prod.fst) ed = some s) :
    (res_t d = .ok r →
      calculate_asset_performance d sd ed = .ok [(sd, some 1)]) ∧
    (currency_res_t d = .ok r →
      calculate_currency_performance d sd ed = .ok [(sd, some 1)]) ∧
    (total_res_t d = .ok r →
      calculate_total_performance d sd ed = .ok [(sd, some 1)]) := by
  obtain ⟨hsl, hsd⟩ := get_loc_idx_some hs
  have hkey : calcPerf r sd ed = .ok [(sd, some 1)] := by
    rw [calcPerf_ok hsort hs he (Nat.le_refl s)]
    have h1 : s + 1 - s = 1 := by omega
    rw [h1, List.drop_eq_getElem_cons hsl]
    have hval : compoundVals (r.map Prod.snd) s s = [some 1] := by
      simp [compoundVals, compoundStep]
    have hget : (r.map Prod.fst)[s] = sd := by
      rw [← List.getD_eq_getElem _ 0 hsl, hsd]
    rw [hval, List.take_succ_cons, List.take_zero, hget]
    rfl
  refine ⟨fun h => ?_, fun h => ?_, fun h => ?_⟩
  · simp only [calculate_asset_performance, h]
    exact hkey
  · simp only [calculate_currency_performance, h]
    exact hkey
  · simp only [calculate_total_performance, h]
    exact hkey

theorem c10_single_day_range_witness :
    calculate_asset_performance exData 1 1 = .ok [(1, some 1)] :=
  (c10_single_day_range exData exRes 1 1 1
    (by decide) (by decide) (by decide)).1 (by with_unfolding_all decide)

/-! ### Per-asset return formulas -/

theorem getD_replicate {n i : ℕ} (h : i < n) (v x : Val) :
    (List.replicate n v).getD i x = v := by
  rw [List.getD_eq_getElem _ _ (by simpa using h), List.getElem_replicate]

theorem oMul_one_left (x : Val) : oMul (some 1) x = x := by
  cases x <;> simp [oMul]

theorem totalLoop_replicate_one {np : List Val} {n : ℕ} (h : np.length ≤ n) :
    totalLoop np (List.replicate n (some 1)) = diffReturns np := by
  unfold totalLoop diffReturns
  apply List.map_congr_left
  intro i hi
  have hilt : i < np.length - 1 := List.mem_range.mp hi
  have hi1 : i + 1 < n := by omega
  have hi0 : i < n := by omega
  rw [getD_replicate hi1, getD_replicate hi0, oMul_one_left, oMul_one_left]

/-- C2: for every asset and every day `t > 0` of the normalized daily price
calendar (contiguous from first to last observed date, gap-filled by forward
then backward fill, which is what `new_prices_for` computes), the per-asset
price return at `t` equals `(price[t] - price[t-1]) / price[t-1]`. -/
theorem c2_price_return_formula (prices : Table) (a : String) (t : ℕ) (pt pt1 : ℚ)
    (ht : 0 < t) (htl : t < (new_prices_for prices a).length)
    (hpt : (new_prices_for prices a).getD t none = some pt)
    (hpt1 : (new_prices_for prices a).getD (t - 1) none = some pt1)
    (hnz : pt1 ≠ 0) :
    (count_return_prices_for_asset prices a).getD (t - 1) none =
      some ((pt - pt1) / pt1) := by
  have h : t - 1 < (new_prices_for prices a).length - 1 := by omega
  rw [count_return_prices_for_asset, diffReturns_getD _ h]
  have ht1 : t - 1 + 1 = t := by omega
  rw [ht1, hpt, hpt1]
  simp [oSub, oDiv, hnz]

theorem c2_price_return_formula_witness :
    (count_return_prices_for_asset exPrices2 "A").getD 0 none =
      some (((2 : ℚ) - 1) / 1) :=
  c2_price_return_formula exPrices2 "A" 1 2 1 (by decide)
    (by with_unfolding_all decide) (by with_unfolding_all decide)
    (by with_unfolding_all decide) (by norm_num)

/-- C3: the per-asset total return at day `t` is the day-over-day return of
`value[t] = rate[t] * price[t]` (price normalized and gap-filled, rate the
series `__get_series_by_currency` yields — the raw exchange column, or
constant `1` for the base or an unknown currency); and it is not the sum of
the price return and the currency return, as the concrete two-day dataset
shows (total `3` versus `1 + 1`). -/
theorem c3_total_return_formula (prices : Table) (currencies : List (String × String))
    (exchanges : Table) (a : String) (t : ℕ) (pt pt1 ct ct1 : ℚ)
    (hlen : (new_prices_for prices a).length ≤
      (get_series_by_currency currencies exchanges a).length)
    (ht : 0 < t) (htl : t < (new_prices_for prices a).length)
    (hpt : (new_prices_for prices a).getD t none = some pt)
    (hpt1 : (new_prices_for prices a).getD (t - 1) none = some pt1)
    (hct : (get_series_by_currency currencies exchanges a).getD t none = some ct)
    (hct1 : (get_series_by_currency currencies exchanges a).getD (t - 1) none = some ct1)
    (hnz : ct1 * pt1 ≠ 0) :
    (∃ res, count_total_perfomance_for_asset prices currencies exchanges a = .ok res ∧
      res.getD (t - 1) none = some ((ct * pt - ct1 * pt1) / (ct1 * pt1))) ∧
    (count_total_perfomance_for_asset exPrices2 exCurrencies exExchanges2 "A" =
        .ok [some 3] ∧
      count_return_prices_for_asset exPrices2 "A" = [some 1] ∧
      count_currency_perfomance_for_asset exCurrencies exExchanges2 "A" =
        .ok [some 1] ∧
      oAdd (some 1) (some 1) ≠ (some 3 : Val)) := by
  constructor
  · refine ⟨totalLoop (new_prices_for prices a)
      (get_series_by_currency currencies exchanges a), ?_, ?_⟩
    · rw [count_total_perfomance_for_asset, if_pos (Or.inr hlen)]
    · have h : t - 1 < (new_prices_for prices a).length - 1 := by omega
      rw [totalLoop_getD _ _ h]
      have ht1 : t - 1 + 1 = t := by omega
      rw [ht1, hpt, hpt1, hct, hct1]
      simp [oMul, oSub, oDiv, hnz]
  · refine ⟨by with_unfolding_all decide, by with_unfolding_all decide,
      by with_unfolding_all decide, by with_unfolding_all decide⟩

theorem c3_total_return_formula_witness :
    ∃ res, count_total_perfomance_for_asset exPrices2 exCurrencies exExchanges2 "A" =
        .ok res ∧
      res.getD 0 none = some (((2 : ℚ) * 2 - 1 * 1) / (1 * 1)) :=
  (c3_total_return_formula exPrices2 exCurrencies exExchanges2 "A" 1 2 1 2 1
    (by with_unfolding_all decide) (by decide) (by with_unfolding_all decide)
    (by with_unfolding_all decide) (by with_unfolding_all decide)
    (by with_unfolding_all decide) (by with_unfolding_all decide)
    (by norm_num)).1

/-- C4: for every asset whose currency code equals the base currency `USD`,
the per-asset currency-return series has one entry per exchange-table day
after the first, each exactly `0`. -/
theorem c4_base_currency_zero (currencies : List (String × String)) (exchanges : Table)
    (a : String) (p : String × String)
    (hfind : currencies.find? (fun q => q.1 == a) = some p)
    (hUSD : p.2 = "USD") :
    ∃ s, count_currency_perfomance_for_asset currencies exchanges a = .ok s ∧
      s.length = exchanges.idx.length - 1 ∧
      ∀ i, i < s.length → s.getD i none = some 0 := by
  have hres : count_currency_perfomance_for_asset currencies exchanges a =
      .ok (List.replicate (exchanges.idx.length - 1) (some 0)) := by
    simp only [count_currency_perfomance_for_asset, hfind]
    rw [if_pos (by simp [hUSD])]
  refine ⟨_, hres, by simp, ?_⟩
  intro i hi
  exact getD_replicate (by simpa using hi) _ _

theorem c4_base_currency_zero_witness :
    ∃ s, count_currency_perfomance_for_asset exCurrenciesUSD exExchanges "A" = .ok s ∧
      s.length = exExchanges.idx.length - 1 ∧
      ∀ i, i < s.length → s.getD i none = some 0 :=
  c4_base_currency_zero exCurrenciesUSD exExchanges "A" ("A", "USD")
    (by decide) rfl

/-- C5 as amended: for an asset whose currency code has no exchange-rate
column, the total-return operation does not fail and treats the rate as a
constant `1`, so its result equals the price-return series; the
currency-return operation, however, does fail with `KeyError` (the unguarded
`self._exchanges[cur_currency]` lookup), contrary to the original claim. -/
theorem c5_unknown_currency_behavior (prices : Table)
    (currencies : List (String × String)) (exchanges : Table) (a : String)
    (p : String × String)
    (hfind : currencies.find? (fun q => q.1 == a) = some p)
    (hne : ¬ p.2 = "USD")
    (hnocol : exchanges.cols.find? (fun q => q.1 == p.2) = none)
    (hlen : (new_prices_for prices a).length ≤ exchanges.idx.length) :
    count_currency_perfomance_for_asset currencies exchanges a = .error .keyError ∧
    count_total_perfomance_for_asset prices currencies exchanges a =
      .ok (count_return_prices_for_asset prices a) := by
  have hser : get_series_by_currency currencies exchanges a =
      List.replicate exchanges.idx.length (some 1) := by
    simp only [get_series_by_currency, hfind, hnocol]
  constructor
  · simp only [count_currency_perfomance_for_asset, hfind, hnocol]
    rw [if_neg (by simpa using hne)]
  · rw [count_total_perfomance_for_asset, if_pos]
    · rw [hser, count_return_prices_for_asset,
        totalLoop_replicate_one (by simpa using hlen)]
    · right
      rw [hser]
      simpa using hlen

theorem c5_unknown_currency_behavior_witness :
    count_currency_perfomance_for_asset exCurrenciesGBP exExchanges "A" =
        .error .keyError ∧
      count_total_perfomance_for_asset exPrices exCurrenciesGBP exExchanges "A" =
        .ok (count_return_prices_for_asset exPrices "A") :=
  c5_unknown_currency_behavior exPrices exCurrenciesGBP exExchanges "A" ("A", "GBP")
    (by decide) (by decide) (by decide) (by with_unfolding_all decide)

/-- C5, claim as stated, is false: at this concrete input the asset's
currency `GBP` is absent from the exchange table's columns, yet the
currency-return operation fails with `KeyError` instead of returning a zero
series. -/
theorem c5_unknown_currency_counterexample :
    exCurrenciesGBP = [("A", "GBP")] ∧
      colNames exExchanges = ["EUR"] ∧
      count_currency_perfomance_for_asset exCurrenciesGBP exExchanges "A" =
        .error .keyError := by
  refine ⟨rfl, by decide, by with_unfolding_all decide⟩

/-! ### Table-assembly lemmas -/

theorem assignIndex_ok {cols : List (String × List Val)} {newIdx : List ℕ} {t : Table}
    (h : assignIndex cols newIdx = .ok t) : t.idx = newIdx ∧ t.cols = cols := by
  simp only [assignIndex] at h
  split at h
  · injection h with h
    subst h
    exact ⟨rfl, rfl⟩
  · cases h

/-- C7 as amended: the per-asset price and total return series derived from a
price table with `N` normalized calendar days have exactly `N − 1` entries
and the assembled tables are indexed by days `2..N` of that calendar; the
per-asset currency-return series, however, has (raw exchange-table rows − 1)
entries, which equals the normalized exchange-calendar length minus one only
when the exchange table is already contiguous daily. -/
theorem c7_return_series_lengths (prices : Table) (d : RawData)
    (currencies : List (String × String)) (exchanges : Table) (a : String)
    (rt tt : Table) (s s2 : List Val)
    (hwf : ∀ q ∈ exchanges.cols, q.2.length = exchanges.idx.length) :
    (count_return_prices_for_asset prices a).length =
      (dailyRange prices.idx).length - 1 ∧
    (calculate_price_perfomance_for_all_assets prices = .ok rt →
      rt.idx = (dailyRange prices.idx).drop 1) ∧
    (count_total_perfomance_for_asset prices currencies exchanges a = .ok s2 →
      s2.length = (dailyRange prices.idx).length - 1) ∧
    (calculate_total_perfomance_for_all_assets d = .ok tt →
      tt.idx = (dailyRange d.prices.idx).drop 1) ∧
    (count_currency_perfomance_for_asset currencies exchanges a = .ok s →
      s.length = exchanges.idx.length - 1) ∧
    (count_currency_perfomance_for_asset currencies exchanges a = .ok s →
      exchanges.idx = dailyRange exchanges.idx →
      s.length = (dailyRange exchanges.idx).length - 1) := by
  have hcur : count_currency_perfomance_for_asset currencies exchanges a = .ok s →
      s.length = exchanges.idx.length - 1 := by
    intro h
    unfold count_currency_perfomance_for_asset at h
    cases hf : currencies.find? (fun q => q.1 == a) with
    | none =>
      simp only [hf] at h
      exact Except.noConfusion h
    | some p =>
      simp only [hf] at h
      split at h
      · injection h with h
        rw [← h]
        simp
      · cases hq : exchanges.cols.find? (fun q => q.1 == p.2) with
        | none =>
          simp only [hq] at h
          exact Except.noConfusion h
        | some q =>
          simp only [hq] at h
          injection h with h
          rw [← h, diffReturns_length, fillNA_length]
          rw [hwf q (List.mem_of_find?_eq_some hq)]
  refine ⟨?_, ?_, ?_, ?_, hcur, ?_⟩
  · rw [count_return_prices_for_asset, diffReturns_length, new_prices_for_length]
  · intro h
    unfold calculate_price_perfomance_for_all_assets at h
    exact (assignIndex_ok h).1
  · intro h
    unfold count_total_perfomance_for_asset at h
    split at h
    · injection h with h
      rw [← h, totalLoop_length, new_prices_for_length]
    · cases h
  · intro h
    unfold calculate_total_perfomance_for_all_assets at h
    split at h
    · cases h
    · exact (assignIndex_ok h).1
  · intro h hc
    rw [hcur h, ← hc]

theorem c7_return_series_lengths_witness :
    (count_return_prices_for_asset exPrices "A").length =
      (dailyRange exPrices.idx).length - 1 ∧
    (∃ s, count_currency_perfomance_for_asset exCurrencies exExchanges "A" = .ok s ∧
      s.length = exExchanges.idx.length - 1) :=
  ⟨(c7_return_series_lengths exPrices exData exCurrencies exExchanges "A"
      ⟨[], []⟩ ⟨[], []⟩ [] [] (by decide)).1,
   ⟨[some 0, some 1],
    by with_unfolding_all decide,
    (c7_return_series_lengths exPrices exData exCurrencies exExchanges "A"
      ⟨[], []⟩ ⟨[], []⟩ [some 0, some 1] [] (by decide)).2.2.2.2.1
      (by with_unfolding_all decide)⟩⟩

/-- C7, claim as stated, is false for the currency metric: with an exchange
table covering days `{0, 2}` (one internal gap), the per-asset
currency-return series has `1` entry while the normalized exchange calendar
has `3` days, so the claimed `N − 1 = 2` fails, and assembling the
currency-return table for all assets fails with `ValueError` instead of
producing a series indexed by days `2..N`. -/
theorem c7_return_series_lengths_counterexample :
    count_currency_perfomance_for_asset exCurrencies gapExchanges "A" =
        .ok [some 1] ∧
      (dailyRange gapExchanges.idx).length - 1 = 2 ∧
      ¬ (([some 1] : List Val).length = 2) ∧
      calculate_currency_perfomance_for_all_assets exDataGap = .error .valueError := by
  exact ⟨by with_unfolding_all decide, by decide, by decide,
    by with_unfolding_all decide⟩

/-! ### Index-alignment lemmas -/

theorem mergeUnionFuel_length (fuel : ℕ) :
    ∀ xs ys : List ℕ, xs.length ≤ (mergeUnionFuel fuel xs ys).length ∧
      ys.length ≤ (mergeUnionFuel fuel xs ys).length := by
  induction fuel with
  | zero =>
    intro xs ys
    simp [mergeUnionFuel]
  | succ f ih =>
    intro xs ys
    match xs, ys with
    | [], ys => simp [mergeUnionFuel]
    | x :: xs, [] => simp [mergeUnionFuel]
    | x :: xs, y :: ys =>
      simp only [mergeUnionFuel]
      split
      · obtain ⟨h1, h2⟩ := ih xs (y :: ys)
        simp only [List.length_cons] at *
        constructor <;> omega
      · split
        · obtain ⟨h1, h2⟩ := ih (x :: xs) ys
          simp only [List.length_cons] at *
          constructor <;> omega
        · obtain ⟨h1, h2⟩ := ih xs ys
          simp only [List.length_cons] at *
          constructor <;> omega

theorem mergeUnion_length_left (xs ys : List ℕ) :
    xs.length ≤ (mergeUnion xs ys).length :=
  (mergeUnionFuel_length (xs.length + ys.length) xs ys).1

theorem mergeUnion_length_right (xs ys : List ℕ) :
    ys.length ≤ (mergeUnion xs ys).length :=
  (mergeUnionFuel_length (xs.length + ys.length) xs ys).2

theorem mergeUnionFuel_mem (fuel : ℕ) :
    ∀ (xs ys : List ℕ) (d : ℕ), d ∈ xs ∨ d ∈ ys → d ∈ mergeUnionFuel fuel xs ys := by
  induction fuel with
  | zero =>
    intro xs ys d hd
    simp only [mergeUnionFuel, List.mem_append]
    exact hd
  | succ f ih =>
    intro xs ys d hd
    match xs, ys with
    | [], ys =>
      simp only [mergeUnionFuel]
      rcases hd with hd | hd
      · cases hd
      · exact hd
    | x :: xs, [] =>
      simp only [mergeUnionFuel]
      rcases hd with hd | hd
      · exact hd
      · cases hd
    | x :: xs, y :: ys =>
      simp only [mergeUnionFuel]
      split
      · rcases hd with hd | hd
        · rcases List.mem_cons.mp hd with rfl | hd
          · exact List.mem_cons_self _ _
          · exact List.mem_cons_of_mem _ (ih xs (y :: ys) d (Or.inl hd))
        · exact List.mem_cons_of_mem _ (ih xs (y :: ys) d (Or.inr hd))
      · split
        · rcases hd with hd | hd
          · exact List.mem_cons_of_mem _ (ih (x :: xs) ys d (Or.inl hd))
          · rcases List.mem_cons.mp hd with rfl | hd
            · exact List.mem_cons_self _ _
            · exact List.mem_cons_of_mem _ (ih (x :: xs) ys d (Or.inr hd))
        · have hxy : x = y := by omega
          rcases hd with hd | hd
          · rcases List.mem_cons.mp hd with rfl | hd
            · exact List.mem_cons_self _ _
            · exact List.mem_cons_of_mem _ (ih xs ys d (Or.inl hd))
          · rcases List.mem_cons.mp hd with rfl | hd
            · rw [hxy]
              exact List.mem_cons_self _ _
            · exact List.mem_cons_of_mem _ (ih xs ys d (Or.inr hd))

theorem mergeUnion_mem {xs ys : List ℕ} {d : ℕ} (hd : d ∈ xs ∨ d ∈ ys) :
    d ∈ mergeUnion xs ys :=
  mergeUnionFuel_mem (xs.length + ys.length) xs ys d hd

theorem lookupDate_not_mem {idx : List ℕ} {col : List Val} {d : ℕ} (h : d ∉ idx) :
    lookupDate idx col d = none := by
  unfold lookupDate
  have hnone : (idx.zip col).find? (fun p => p.1 == d) = none := by
    rw [List.find?_eq_none]
    intro p hp
    have hmem := (List.of_mem_zip hp).1
    simp only [beq_iff_eq]
    intro he
    exact h (he ▸ hmem)
  rw [hnone]

theorem atDate_not_mem {t : Table} {a : String} {d : ℕ} (h : d ∉ t.idx) :
    atDate t a d = none := by
  unfold atDate
  cases hf : t.cols.find? (fun p => p.1 == a) with
  | none => rfl
  | some p => exact lookupDate_not_mem h

theorem oMul_none_right (x : Val) : oMul x none = none := by
  cases x <;> rfl

theorem oAdd_none_left (x : Val) : oAdd none x = none := by
  cases x <;> rfl

theorem foldl_oAdd_none (l : List Val) : l.foldl oAdd none = none := by
  induction l with
  | nil => rfl
  | cons x t ih =>
    rw [List.foldl_cons, oAdd_none_left]
    exact ih

theorem foldl_oAdd_somes (l : List ℚ) :
    ∀ init : ℚ, ((l.map some).foldl oAdd (some init)) = some (init + l.sum) := by
  induction l with
  | nil =>
    intro init
    simp
  | cons x t ih =>
    intro init
    rw [List.map_cons, List.foldl_cons]
    show (t.map some).foldl oAdd (oAdd (some init) (some x)) = some (init + (x :: t).sum)
    rw [show oAdd (some init) (some x) = some (init + x) from rfl, ih (init + x)]
    congr 1
    rw [List.sum_cons]
    ring

/-- A row of `df * w` at a date carried by both frames, with every cell
known: Python's row sum is the real sum of the products. -/
theorem rowSum_somes {df w : Table} {d0 : ℕ} {f g : String → ℚ}
    (hf : ∀ a ∈ alignNames df w, atDate df a d0 = some (f a))
    (hg : ∀ a ∈ alignNames df w, atDate w a d0 = some (g a)) :
    rowSum df w d0 = some (((alignNames df w).map (fun a => f a * g a)).sum) := by
  unfold rowSum
  have hmap : (alignNames df w).map (fun a => oMul (atDate df a d0) (atDate w a d0)) =
      ((alignNames df w).map (fun a => f a * g a)).map some := by
    rw [List.map_map]
    apply List.map_congr_left
    intro a ha
    rw [hf a ha, hg a ha]
    rfl
  rw [hmap, foldl_oAdd_somes]
  rw [zero_add]

/-- A row of `df * w` at a date one of the frames does not carry is `NaN`
(provided there is at least one column). -/
theorem rowSum_missing_right {df w : Table} {d0 : ℕ}
    (hnames : colNames df ≠ []) (hnd : d0 ∉ w.idx) : rowSum df w d0 = none := by
  unfold rowSum
  have hmap : (alignNames df w).map (fun a => oMul (atDate df a d0) (atDate w a d0)) =
      (alignNames df w).map (fun _ => (none : Val)) := by
    apply List.map_congr_left
    intro a _
    rw [atDate_not_mem hnd, oMul_none_right]
  rw [hmap]
  cases hn : alignNames df w with
  | nil =>
    exfalso
    unfold alignNames at hn
    exact hnames (List.append_eq_nil.mp hn).1
  | cons b t =>
    rw [List.map_cons, List.foldl_cons,
      show oAdd (some 0) none = none from rfl]
    exact foldl_oAdd_none _

theorem find?_map_keys (F : List Val → List Val)
    (cols : List (String × List Val)) (a : String) :
    (cols.map (fun p => (p.1, F p.2))).find? (fun p => p.1 == a) =
      (cols.find? (fun p => p.1 == a)).map (fun p => (p.1, F p.2)) := by
  induction cols with
  | nil => rfl
  | cons q t ih =>
    cases hqa : (q.1 == a) with
    | true => simp [List.find?, hqa]
    | false => simp [List.find?, hqa, ih]

theorem map_fst_pairs (l : List ℕ) (c : ℕ → Val) :
    (l.map (fun d => (d, c d))).map Prod.fst = l := by
  induction l with
  | nil => rfl
  | cons h t ih => simp [ih]

/-- C8 as amended: the weight table is expanded onto the daily calendar,
gap-filled exactly like price data (the same `fillNA` after the same daily
reindexing), and its final day dropped; the aggregated series is indexed by
the union of the return index and the prepared weight index (pandas aligns
`rt * weights` on date labels), and on every day carried by the return index
with all cells known its value is `Σ over assets of return × weight`. -/
theorem c8_weight_aggregation (w rt : Table) (a : String) (p : String × List Val)
    (d0 : ℕ) (f g : String → ℚ)
    (hp : w.cols.find? (fun q => q.1 == a) = some p)
    (hd0 : d0 ∈ rt.idx)
    (hf : ∀ b ∈ alignNames rt (prepare_weights_df w),
      atDate rt b d0 = some (f b))
    (hg : ∀ b ∈ alignNames rt (prepare_weights_df w),
      atDate (prepare_weights_df w) b d0 = some (g b)) :
    (prepare_weights_df w).idx = (dailyRange w.idx).dropLast ∧
    getCol (prepare_weights_df w) a = (fillNA (newIndexCol w.idx p.2)).dropLast ∧
    (calculate_price_perfomance_according_on_weights rt
      (prepare_weights_df w)).map Prod.fst =
      mergeUnion rt.idx (prepare_weights_df w).idx ∧
    (d0, some (((alignNames rt (prepare_weights_df w)).map
        (fun b => f b * g b)).sum)) ∈
      calculate_price_perfomance_according_on_weights rt (prepare_weights_df w) := by
  refine ⟨rfl, ?_, ?_, ?_⟩
  · unfold getCol prepare_weights_df
    rw [find?_map_keys (fun c => (fillNA (newIndexCol w.idx c)).dropLast) w.cols a, hp]
    rfl
  · unfold calculate_price_perfomance_according_on_weights mul_with_weights
    exact map_fst_pairs _ _
  · unfold calculate_price_perfomance_according_on_weights mul_with_weights
    rw [← rowSum_somes hf hg]
    exact List.mem_map_of_mem _ (mergeUnion_mem (Or.inl hd0))

theorem c8_weight_aggregation_witness :
    (prepare_weights_df exWeights).idx = (dailyRange exWeights.idx).dropLast ∧
    getCol (prepare_weights_df exWeights) "A" =
      (fillNA (newIndexCol exWeights.idx [some 1, some 1, some 1])).dropLast ∧
    (calculate_price_perfomance_according_on_weights ⟨[1, 2], [("A", [some 1, some 1])]⟩
      (prepare_weights_df exWeights)).map Prod.fst =
      mergeUnion [1, 2] (prepare_weights_df exWeights).idx ∧
    (1, some (((alignNames ⟨[1, 2], [("A", [some 1, some 1])]⟩
        (prepare_weights_df exWeights)).map (fun _ => (1 : ℚ) * 1)).sum)) ∈
      calculate_price_perfomance_according_on_weights ⟨[1, 2], [("A", [some 1, some 1])]⟩
        (prepare_weights_df exWeights) :=
  c8_weight_aggregation exWeights ⟨[1, 2], [("A", [some 1, some 1])]⟩ "A"
    ("A", [some 1, some 1, some 1]) 1 (fun _ => 1) (fun _ => 1)
    (by decide) (by decide)
    (by with_unfolding_all decide) (by with_unfolding_all decide)

/-- C8, claim as stated, is false: the portfolio-level series is not indexed
identically to the per-asset return series.  Concretely, the per-asset price
return table is indexed by `[1, 2]` while the aggregated portfolio series is
indexed by `[0, 1, 2]` — the union with the prepared weight index — with a
`NaN` value on the days only one operand carries. -/
theorem c8_weight_aggregation_counterexample :
    calculate_price_perfomance_for_all_assets exPrices =
        .ok ⟨[1, 2], [("A", [some 1, some 1])]⟩ ∧
      res_t exData = .ok exRes ∧
      exRes.map Prod.fst = [0, 1, 2] ∧
      ¬ (([0, 1, 2] : List ℕ) = [1, 2]) :=
  ⟨by with_unfolding_all decide, by with_unfolding_all decide, by decide, by decide⟩

/-- C9 as amended: when the weight table's covered range differs from the
return series' range, the day-by-day alignment neither fails nor truncates:
the aggregated series is indexed by the union of the two date indexes — at
least as long as either input — and any day carried by the return index but
not by the weight index is kept with a `NaN` value. -/
theorem c9_weight_misalignment (rt w : Table) (d0 : ℕ)
    (hnames : colNames rt ≠ [])
    (hd : d0 ∈ rt.idx) (hnd : d0 ∉ w.idx) :
    rt.idx.length ≤ (calculate_price_perfomance_according_on_weights rt w).length ∧
    w.idx.length ≤ (calculate_price_perfomance_according_on_weights rt w).length ∧
    (d0, (none : Val)) ∈ calculate_price_perfomance_according_on_weights rt w := by
  unfold calculate_price_perfomance_according_on_weights mul_with_weights
  refine ⟨?_, ?_, ?_⟩
  · rw [List.length_map]
    exact mergeUnion_length_left _ _
  · rw [List.length_map]
    exact mergeUnion_length_right _ _
  · rw [← rowSum_missing_right hnames hnd]
    exact List.mem_map_of_mem _ (mergeUnion_mem (Or.inl hd))

theorem c9_weight_misalignment_witness :
    (3 : ℕ) ≤ (calculate_price_perfomance_according_on_weights
        ⟨[1, 2, 3], [("A", [some 0, some 0, some 0])]⟩ (prepare_weights_df exWeights2)).length ∧
    (1 : ℕ) ≤ (calculate_price_perfomance_according_on_weights
        ⟨[1, 2, 3], [("A", [some 0, some 0, some 0])]⟩ (prepare_weights_df exWeights2)).length ∧
    (3, (none : Val)) ∈ calculate_price_perfomance_according_on_weights
        ⟨[1, 2, 3], [("A", [some 0, some 0, some 0])]⟩ (prepare_weights_df exWeights2) :=
  c9_weight_misalignment ⟨[1, 2, 3], [("A", [some 0, some 0, some 0])]⟩
    (prepare_weights_df exWeights2) 3 (by decide) (by decide) (by decide)

/-- C9, claim as stated, is false: with four price days and two weight days,
the per-asset return series has `3` entries and the prepared weight table `1`,
yet the pipeline's portfolio series has `4` entries (the union of the two
calendars, `NaN`-filled) — it is not truncated to the shorter input. -/
theorem c9_weight_misalignment_counterexample :
    res_t exData4 = .ok [(0, none), (1, none), (2, none), (3, none)] ∧
      calculate_price_perfomance_for_all_assets exPrices4 =
        .ok ⟨[1, 2, 3], [("A", [some 0, some 0, some 0])]⟩ ∧
      (prepare_weights_df exWeights2).idx.length = 1 ∧
      ¬ (([(0, none), (1, none), (2, none), (3, none)] : List (ℕ × Val)).length = 1) :=
  ⟨by with_unfolding_all decide, by with_unfolding_all decide, by decide, by decide⟩
